import Mathlib

/-!
Verification of the `cluttool` color-LUT converter (`src/cluttool/cluttool.py`).

The Python numeric operations are modelled over exact rationals (`ℚ`):
CPython floats and `Decimal` values are embedded as the rationals they
denote, and the arithmetic the program performs on them is carried out
exactly.  Machine behaviour that raises in Python (`TypeError`,
`ZeroDivisionError`, `ValueError`, `IndexError`) is modelled with
`Except Err`.  Python `list`/`array` values are Lean `List`s; Python's
slice semantics (which clamp instead of raising) are modelled by
`pySlice` below.
-/

namespace Cluttool

/-- Python `range(n)` for an `int` argument: `[0, 1, ..., n-1]`, empty when
`n ≤ 0`. -/
def pyRange (n : ℤ) : List ℤ :=
  (List.range n.toNat).map (fun (i : ℕ) => (i : ℤ))

/-- Python slice `l[a:b]`: negative bounds count from the end, and all
bounds are clamped to `[0, len(l)]`; slicing never raises. -/
def pySlice (l : List ℚ) (a b : ℤ) : List ℚ :=
  let n : ℤ := l.length
  let s := if a < 0 then max (n + a) 0 else min a n
  let e := if b < 0 then max (n + b) 0 else min b n
  (l.take e.toNat).drop s.toNat

/-- Python `math.trunc`: round toward zero. -/
def pyTrunc (q : ℚ) : ℤ :=
  if 0 ≤ q then ⌊q⌋ else ⌈q⌉

/-- Python `Decimal(a) % Decimal(b)`: the remainder of truncated division
(sign of the dividend).  `Decimal` arithmetic on values coming from floats
is exact, so this is exact rational arithmetic.  (Python raises
`InvalidOperation` for `b = 0`; that case is never reached in any theorem
below.) -/
def decimalMod (a b : ℚ) : ℚ :=
  a - b * (pyTrunc (a / b))

/-- Python `round(q)` and `'\x7b:.0f\x7d'.format(q)`: nearest integer, ties
to even. -/
def pyRound (q : ℚ) : ℤ :=
  let f := ⌊q⌋
  if q - f < 1/2 then f
  else if 1/2 < q - f then f + 1
  else if f % 2 = 0 then f else f + 1

/-- Floor of the real cube root of a natural number. -/
def icbrt (n : ℕ) : ℕ :=
  ((Finset.range (n + 1)).filter (fun c => c ^ 3 ≤ n)).card - 1

/-- Floor of the real sixth root of a natural number: source computes
`int(n ** (1/6.))`; exact here (the `c + 1` disjunct of
`is_perfect_six_root` absorbs the float's possible under-estimation by
one, so the two agree on the result of `is_perfect_six_root`). -/
def i6root (n : ℕ) : ℕ :=
  ((Finset.range (n + 1)).filter (fun c => c ^ 6 ≤ n)).card - 1

/-- `is_perfect_six_root` (cluttool.py lines 27-29):
`c = int(n**(1/6.)); return (c**6 == n) or ((c+1)**6 == n)`. -/
def is_perfect_six_root (n : ℕ) : Bool :=
  let c := i6root n
  (c ^ 6 == n) || ((c + 1) ^ 6 == n)

/-- `int(round(n ** (1/3.)))`: the nearest integer to the real cube root
(`8*n < (2*c+1)^3` says the cube root is below `c + 1/2`; no ties are
possible since `(2c+1)^3` is odd). -/
def cbrtRound (n : ℕ) : ℕ :=
  let c := icbrt n
  if 8 * n < (2 * c + 1) ^ 3 then c else c + 1

/-- The exceptions the modelled code can raise. -/
inductive Err where
  | valueError (msg : String)
  | typeError
  | zeroDivisionError
  | indexError
  deriving DecidableEq

deriving instance DecidableEq for Except

/-- Whether a modelled call raised (any `Err`). -/
def failed {α : Type _} : Except Err α → Bool
  | .error _ => true
  | .ok _ => false

/-- The adjacent-pair tolerance loop of `uniform_intervals`
(lines 51-55): checks every adjacent pair of the (rounded) values;
`error_frac = abs(actual_dist/dist - 1.0)` must stay `≤ 0.07`. -/
def checkPairs (dist : ℚ) : List ℤ → Bool
  | a :: b :: rest =>
      (|((b : ℚ) - (a : ℚ)) / dist - 1| ≤ 7/100) && checkPairs dist (b :: rest)
  | _ => true

/-- `uniform_intervals(end, samples)` (lines 43-56) in its integral mode
(`floating_point=False`, the only mode the repository calls; with the
flag set the unrounded rationals would be returned unchecked).
`samples = 1` raises `ZeroDivisionError` from `end/float(samples-1)`. -/
def uniform_intervals (e : ℚ) (samples : ℤ) : Except Err (List ℤ) :=
  if samples = 1 then .error .zeroDivisionError
  else
    let dist := e / ((samples : ℚ) - 1)
    let values := (pyRange samples).map (fun (i : ℤ) => pyRound (dist * (i : ℚ)))
    if checkPairs dist values then .ok values
    else .error (.valueError
      "input parameters to uniform_intervals would yield a non-uniform distribution.")

/-- `Value3D` (lines 59-95): wraps the component tuple it is given (a
slice, so possibly shorter than 3). -/
structure Value3D where
  components : List ℚ
  deriving DecidableEq

/-- `components[i]`.  Python raises `IndexError` past the end; `__add__`
and `__mul__` only ever index `[0]`, `[1]`, `[2]`, and every theorem
below applies them to 3-component values only, so the default is never
observable. -/
def Value3D.comp (v : Value3D) (i : ℕ) : ℚ :=
  v.components.getD i 0

/-- `Value3D.__add__`: componentwise on the first three components. -/
def Value3D.add (v w : Value3D) : Value3D :=
  ⟨[v.comp 0 + w.comp 0, v.comp 1 + w.comp 1, v.comp 2 + w.comp 2]⟩

/-- `Value3D.__mul__` by a scalar. -/
def Value3D.mul (v : Value3D) (y : ℚ) : Value3D :=
  ⟨[v.comp 0 * y, v.comp 1 * y, v.comp 2 * y]⟩

/-- `index_3d(data, size, r_idx, g_idx, b_idx)` (lines 98-106):
`idx = (r + size*g + size**2*b) * 3; return data[idx:idx+3]`.
A Python slice, hence total: no bounds check is performed. -/
def index_3d (data : List ℚ) (size : ℤ) (r_idx g_idx b_idx : ℤ) : List ℚ :=
  let idx := (r_idx + size * g_idx + size ^ 2 * b_idx) * 3
  pySlice data idx (idx + 3)

/-- The `ColorLUT` object after a successful `__init__`. -/
structure ColorLUT where
  data : List ℚ
  sample_count : ℤ
  input_domain : ℚ
  red_increments_fastest : Bool
  deriving DecidableEq

/-- `self.sample_distance = self.input_domain / float(self.sample_count-1)`
(line 135). -/
def ColorLUT.sample_distance (lut : ColorLUT) : ℚ :=
  lut.input_domain / ((lut.sample_count : ℚ) - 1)

/-- `ColorLUT.get_color_value_from_index` (lines 137-146): swaps `r` and
`b` when `red_increments_fastest` is false, then indexes. -/
def ColorLUT.get_color_value_from_index (lut : ColorLUT) (r_idx g_idx b_idx : ℤ) :
    Value3D :=
  let p := if lut.red_increments_fastest then (r_idx, b_idx) else (b_idx, r_idx)
  ⟨index_3d lut.data lut.sample_count p.1 g_idx p.2⟩

/-- The per-axis computation of `get_interpolated_color_value`
(lines 166-185, written out three times in the source, once per axis):
at the domain boundary clamp to `(sample_count - 2, 1)`, otherwise
`idx0 = trunc(v/sample_distance)` and
`d = float(Decimal(v) % Decimal(sample_distance)) / sample_distance`. -/
def ColorLUT.axisParam (lut : ColorLUT) (v : ℚ) : ℤ × ℚ :=
  if v = lut.input_domain then (lut.sample_count - 2, 1)
  else (pyTrunc (v / lut.sample_distance),
        decimalMod v lut.sample_distance / lut.sample_distance)

/-- `ColorLUT.get_interpolated_color_value` (lines 148-210): trilinear
interpolation over the 8 enclosing grid points. -/
def ColorLUT.get_interpolated_color_value (lut : ColorLUT) (r_in g_in b_in : ℚ) :
    Value3D :=
  let rp := lut.axisParam r_in
  let gp := lut.axisParam g_in
  let bp := lut.axisParam b_in
  let r0 := rp.1
  let g0 := gp.1
  let b0 := bp.1
  let rd := rp.2
  let gd := gp.2
  let bd := bp.2
  let c000 := lut.get_color_value_from_index r0 g0 b0
  let c001 := lut.get_color_value_from_index r0 g0 (b0 + 1)
  let c010 := lut.get_color_value_from_index r0 (g0 + 1) b0
  let c011 := lut.get_color_value_from_index r0 (g0 + 1) (b0 + 1)
  let c100 := lut.get_color_value_from_index (r0 + 1) g0 b0
  let c101 := lut.get_color_value_from_index (r0 + 1) g0 (b0 + 1)
  let c110 := lut.get_color_value_from_index (r0 + 1) (g0 + 1) b0
  let c111 := lut.get_color_value_from_index (r0 + 1) (g0 + 1) (b0 + 1)
  let c00 := (c000.mul (1 - rd)).add (c100.mul rd)
  let c01 := (c001.mul (1 - rd)).add (c101.mul rd)
  let c10 := (c010.mul (1 - rd)).add (c110.mul rd)
  let c11 := (c011.mul (1 - rd)).add (c111.mul rd)
  let c0 := (c00.mul (1 - gd)).add (c10.mul gd)
  let c1 := (c01.mul (1 - gd)).add (c11.mul gd)
  (c0.mul (1 - bd)).add (c1.mul bd)

/-- The index generator of `get_values_translated` (lines 231-244):
`red_fastest = true` nests `for b: for g: for r`, so red varies fastest;
otherwise `for r: for g: for b`, so blue varies fastest. -/
def cartesian (n : ℤ) (red_fastest : Bool) : List (ℤ × ℤ × ℤ) :=
  if red_fastest then
    (pyRange n).flatMap (fun b =>
      (pyRange n).flatMap (fun g =>
        (pyRange n).map (fun r => (r, g, b))))
  else
    (pyRange n).flatMap (fun r =>
      (pyRange n).flatMap (fun g =>
        (pyRange n).map (fun b => (r, g, b))))

/-- `ColorLUT.get_values_translated` (lines 212-267).  The result list is
the fully-consumed lazy generator; a Python exception raised either
eagerly (the unconditional `scaling_factor = output_domain /
float(self.input_domain)` on line 229: `TypeError` when `output_domain`
is `None`, `ZeroDivisionError` when `input_domain == 0`) or on first
consumption (`range(None)` when `output_sample_count` is `None`;
`input_domain/float(output_sample_count-1)` when interpolating with
`output_sample_count == 1`) is an `Err`: in every such case the caller
obtains no value. -/
def ColorLUT.get_values_translated (lut : ColorLUT) (increment_red_fastest : Bool)
    (output_sample_count : Option ℤ) (output_domain : Option ℚ) :
    Except Err (List Value3D) :=
  match output_domain with
  | none => .error .typeError
  | some od =>
    if lut.input_domain = 0 then .error .zeroDivisionError
    else
      match output_sample_count with
      | none => .error .typeError
      | some osc =>
        let interpolate := osc ≠ lut.sample_count
        let scale := od ≠ lut.input_domain
        let factor := od / lut.input_domain
        let idxs := cartesian osc increment_red_fastest
        if interpolate then
          if osc = 1 then .error .zeroDivisionError
          else
            let s := lut.input_domain / ((osc : ℚ) - 1)
            let outs := idxs.map (fun t =>
              lut.get_interpolated_color_value ((t.1 : ℚ) * s) ((t.2.1 : ℚ) * s)
                ((t.2.2 : ℚ) * s))
            .ok (if scale then outs.map (fun v => v.mul factor) else outs)
        else
          let outs := idxs.map (fun t =>
            lut.get_color_value_from_index t.1 t.2.1 t.2.2)
          .ok (if scale then outs.map (fun v => v.mul factor) else outs)

/-- A Python number, tagged with whether its runtime type is
`numbers.Integral` (an `int`) or a `float`. -/
inductive PyNum where
  | int (z : ℤ)
  | float (q : ℚ)
  deriving DecidableEq

def PyNum.toRat : PyNum → ℚ
  | .int z => (z : ℚ)
  | .float q => q

def PyNum.isIntegral : PyNum → Bool
  | .int _ => true
  | .float _ => false

/-- A Python `array.array`: a typecode together with the element list
(the elements of an integral-typecode array are Python ints, those of an
`f`/`d` array floats). -/
structure PyArray where
  typecode : Char
  elems : List ℚ
  deriving DecidableEq

/-- The typecodes `'bBhHiIlL'` accepted for an integral domain
(line 120). -/
def integralTypecodes : List Char := ['b', 'B', 'h', 'H', 'i', 'I', 'l', 'L']

/-- The typecodes `'fd'` accepted for a non-integral domain (line 123). -/
def floatTypecodes : List Char := ['f', 'd']

/-- `ColorLUT.__init__` (lines 112-135).  `data[0]` on an empty array
raises `IndexError`; a `None` `sample_count` or `input_domain` fails the
`isinstance` checks; the typecode must match the domain's numeric kind;
the length must be `3 * sample_count**3`; and `sample_count == 1` raises
`ZeroDivisionError` when `sample_distance` is computed. -/
def ColorLUT.init (data : PyArray) (sample_count : Option ℤ)
    (input_domain : Option PyNum) (red_increments_fastest : Bool := true) :
    Except Err ColorLUT :=
  if data.elems = [] then .error .indexError
  else
    match sample_count with
    | none => .error (.valueError "sample_count parameter should be of type int.")
    | some sc =>
      match input_domain with
      | none => .error (.valueError "input_domain parameter should be a number.")
      | some dom =>
        if dom.isIntegral ∧ data.typecode ∉ integralTypecodes then
          .error (.valueError "input_domain parameter should have the same type as the data.")
        else if ¬dom.isIntegral ∧ data.typecode ∉ floatTypecodes then
          .error (.valueError "input_domain parameter should have the same type as the data.")
        else if (data.elems.length : ℤ) ≠ 3 * sc ^ 3 then
          .error (.valueError "The sample intervals do not appear to match the matrix dimensions.")
        else if sc = 1 then .error .zeroDivisionError
        else .ok ⟨data.elems, sc, dom.toRat, red_increments_fastest⟩

/-- The metadata dictionary `png.Reader.read_flat` returns. -/
structure PngMeta where
  palette : Bool
  gamma : Bool
  transparent : Bool
  alpha : Bool
  greyscale : Bool
  bitdepth : ℕ
  deriving DecidableEq

/-- The `triple_generator` closure of `from_haldclut` (lines 282-286):
yields each greyscale sample three times. -/
def tripleGenerator : List ℚ → List ℚ
  | [] => []
  | v :: rest => v :: v :: v :: tripleGenerator rest

/-- `ColorLUT.from_haldclut` (lines 269-300), taking the decoded PNG
(width, height, flat pixel buffer with its array typecode, metadata) as
input; PNG file reading itself is the external collaborator. -/
def ColorLUT.from_haldclut (width height : ℕ) (typecode : Char)
    (pixels : List ℚ) (meta : PngMeta) : Except Err ColorLUT :=
  if meta.palette then
    .error (.valueError "Then given PNG file uses a color palette. Refusing.")
  else if meta.gamma then
    .error (.valueError "Then given PNG file contains a gamma value. Refusing.")
  else if meta.transparent then
    .error (.valueError "Then given PNG file specifies a transparent color. Refusing.")
  else if meta.alpha then
    .error (.valueError "Then given PNG file contains an alpha channel. Refusing.")
  else
    let data := if meta.greyscale then tripleGenerator pixels else pixels
    if meta.bitdepth ≠ 8 ∧ meta.bitdepth ≠ 16 then
      .error (.valueError "Then given PNG file specifies an unsupported bit depth. Refusing.")
    else if width ≠ height ∨ is_perfect_six_root (width ^ 2) = false then
      .error (.valueError "The given PNG file does not have appropriate Hald CLUT dimensions. Refusing.")
    else
      let sample_count := cbrtRound (width ^ 2)
      let input_domain : ℤ := 2 ^ meta.bitdepth - 1
      ColorLUT.init ⟨typecode, data⟩ (some (sample_count : ℤ))
        (some (.int input_domain)) true

/-- `ColorLUT.write_3dl` (lines 309-323), producing the written content
in structured form: the header line of interval values and one list of
`'\x7b:.0f\x7d'`-rounded components per color line (text formatting and
file I/O are the external collaborator). -/
def ColorLUT.write_3dl (lut : ColorLUT) : Except Err (List ℤ × List (List ℤ)) :=
  let output_domain : ℚ := 1023
  match uniform_intervals output_domain lut.sample_count with
  | .error e => .error e
  | .ok sample_intervals =>
    match lut.get_values_translated false (some lut.sample_count) (some output_domain) with
    | .error e => .error e
    | .ok colors =>
      .ok (sample_intervals, colors.map (fun c => c.components.map pyRound))

/-- A structurally valid `ColorLUT` (spec §3): the constructor invariants
`sample_count ≥ 2` and `len(data) = 3 * sample_count³`, and a positive
`input_domain` (the spec defines `input_domain` as the maximum
representable component value, e.g. 255, 1023, 65535 or 1.0; both
implemented read paths produce `2^bitdepth - 1`). -/
def ColorLUT.Valid (lut : ColorLUT) : Prop :=
  2 ≤ lut.sample_count ∧
    (lut.data.length : ℤ) = 3 * lut.sample_count ^ 3 ∧
    0 < lut.input_domain

/-- The buffer split into its consecutive 3-sample triples, in buffer
order (the reference chunking `get_values_translated` is compared to). -/
def triplesOf : List ℚ → List Value3D
  | a :: b :: c :: rest => ⟨[a, b, c]⟩ :: triplesOf rest
  | _ => []

/-! ### Helper lemmas -/

/-- An in-bounds slice `l[a:a+3]` is the plain drop/take window. -/
theorem pySlice_in_bounds (l : List ℚ) (a : ℤ) (h0 : 0 ≤ a)
    (h3 : a + 3 ≤ (l.length : ℤ)) :
    pySlice l a (a + 3) = (l.drop a.toNat).take 3 := by
  simp only [pySlice]
  rw [if_neg (by omega), if_neg (by omega), min_eq_left (by omega),
    min_eq_left (by omega)]
  have ht : (a + 3).toNat = a.toNat + 3 := by omega
  rw [ht]
  exact (List.take_drop a.toNat 3 l).symm

theorem drop_take_length (l : List ℚ) (m : ℕ) (h : m + 3 ≤ l.length) :
    ((l.drop m).take 3).length = 3 := by
  simp only [List.length_take, List.length_drop]
  omega

/-- The flat offset of in-range grid coordinates lies in `[0, size³)`. -/
theorem flat_bounds (N r g b : ℤ) (hr0 : 0 ≤ r) (hr : r < N) (hg0 : 0 ≤ g)
    (hg : g < N) (hb0 : 0 ≤ b) (hb : b < N) :
    0 ≤ r + N * g + N ^ 2 * b ∧ r + N * g + N ^ 2 * b < N ^ 3 := by
  have hN : 0 < N := by omega
  constructor
  · nlinarith
  · nlinarith [mul_le_mul_of_nonneg_left (by omega : g ≤ N - 1) (by nlinarith : (0:ℤ) ≤ N),
      mul_le_mul_of_nonneg_left (by omega : b ≤ N - 1) (by nlinarith : (0:ℤ) ≤ N ^ 2)]

/-- `index_3d` at an in-range flat offset returns the 3-sample window. -/
theorem index_3d_in_bounds (data : List ℚ) (size r g b : ℤ)
    (hlen : (data.length : ℤ) = 3 * size ^ 3)
    (h0 : 0 ≤ r + size * g + size ^ 2 * b)
    (h1 : r + size * g + size ^ 2 * b < size ^ 3) :
    index_3d data size r g b =
      (data.drop ((r + size * g + size ^ 2 * b) * 3).toNat).take 3 := by
  simp only [index_3d]
  exact pySlice_in_bounds data _ (by nlinarith) (by nlinarith)

theorem Value3D.add_length (v w : Value3D) : (v.add w).components.length = 3 := rfl

theorem Value3D.mul_length (v : Value3D) (y : ℚ) :
    (v.mul y).components.length = 3 := rfl

theorem Value3D.mul_one_of_len3 (v : Value3D) (h : v.components.length = 3) :
    v.mul 1 = v := by
  obtain ⟨x, y, z, hxyz⟩ := List.length_eq_three.mp h
  obtain ⟨comps⟩ := v
  subst hxyz
  simp [Value3D.mul, Value3D.comp]

theorem Value3D.lerp_zero (a b : Value3D) (ha : a.components.length = 3) :
    (a.mul (1 - 0)).add (b.mul 0) = a := by
  obtain ⟨x, y, z, hxyz⟩ := List.length_eq_three.mp ha
  obtain ⟨comps⟩ := a
  subst hxyz
  simp [Value3D.mul, Value3D.add, Value3D.comp]

theorem Value3D.lerp_one (a b : Value3D) (hb : b.components.length = 3) :
    (a.mul (1 - 1)).add (b.mul 1) = b := by
  obtain ⟨x, y, z, hxyz⟩ := List.length_eq_three.mp hb
  obtain ⟨comps⟩ := b
  subst hxyz
  simp [Value3D.mul, Value3D.add, Value3D.comp]

/-- Lookup at in-range coordinates yields a full 3-component value. -/
theorem get_color_value_len3 (lut : ColorLUT)
    (hlen : (lut.data.length : ℤ) = 3 * lut.sample_count ^ 3)
    (r g b : ℤ) (hr0 : 0 ≤ r) (hr : r < lut.sample_count) (hg0 : 0 ≤ g)
    (hg : g < lut.sample_count) (hb0 : 0 ≤ b) (hb : b < lut.sample_count) :
    (lut.get_color_value_from_index r g b).components.length = 3 := by
  simp only [ColorLUT.get_color_value_from_index]
  rcases hrif : lut.red_increments_fastest with _ | _
  · simp only [Bool.false_eq_true, if_neg, ite_false]
    obtain ⟨hf0, hf1⟩ := flat_bounds lut.sample_count b g r hb0 hb hg0 hg hr0 hr
    rw [index_3d_in_bounds lut.data lut.sample_count b g r hlen hf0 hf1]
    exact drop_take_length _ _ (by omega)
  · simp only [ite_true]
    obtain ⟨hf0, hf1⟩ := flat_bounds lut.sample_count r g b hr0 hr hg0 hg hb0 hb
    rw [index_3d_in_bounds lut.data lut.sample_count r g b hlen hf0 hf1]
    exact drop_take_length _ _ (by omega)

/-! ### C10: `get_values_translated` with the default `output_domain` -/

/-- C10: for every `ColorLUT`, calling `get_values_translated` with
`output_domain` left at its default `None` fails with an error before
yielding any value: `scaling_factor = output_domain /
float(self.input_domain)` is computed unconditionally, so `None`
triggers a `TypeError` even though no domain scaling would be applied. -/
theorem gvt_default_output_domain_fails (lut : ColorLUT) (irf : Bool)
    (osc : Option ℤ) :
    lut.get_values_translated irf osc none = .error .typeError := rfl

/-! ### C2: the flat cube indexer on out-of-range coordinates -/

/-- A concrete 2×2×2 buffer (24 samples, values `0..23`). -/
def d24 : List ℚ :=
  [0, 1, 2, 3, 4, 5, 6, 7, 8, 9, 10, 11, 12, 13, 14, 15, 16, 17, 18, 19,
   20, 21, 22, 23]

/-- C2 counterexample: on the full-length 2×2×2 buffer `d24` and the
coordinate triple `(2, 0, 0)` — whose red coordinate lies outside
`[0, 2)` — `index_3d` does not fail: it returns the full 3-sample value
`[6, 7, 8]`, which is the sample stored at the in-range grid point
`(0, 1, 0)`. -/
theorem index_3d_counterexample :
    ¬ ((2:ℤ) < 2) ∧ index_3d d24 2 2 0 0 = [6, 7, 8] ∧
      (index_3d d24 2 2 0 0).length = 3 ∧
      index_3d d24 2 2 0 0 = index_3d d24 2 0 1 0 := by decide

/-- C2 amended: `index_3d` performs no bounds check (a Python slice never
raises).  For any buffer of length `3*size³` with `size ≥ 2`, the
out-of-range coordinates `(size, 0, 0)` silently alias the in-range grid
point `(0, 1, 0)`: the same full 3-sample value is returned, not an
error. -/
theorem index_3d_no_bounds_check (data : List ℚ) (size : ℤ) (hsize : 2 ≤ size)
    (hlen : (data.length : ℤ) = 3 * size ^ 3) :
    index_3d data size size 0 0 = index_3d data size 0 1 0 ∧
    (index_3d data size size 0 0).length = 3 := by
  have he : size + size * 0 + size ^ 2 * 0 = 0 + size * 1 + size ^ 2 * 0 := by ring
  constructor
  · simp only [index_3d, he]
  · have h1 : size + size * 0 + size ^ 2 * 0 < size ^ 3 := by nlinarith
    rw [index_3d_in_bounds data size size 0 0 hlen (by nlinarith) h1]
    refine drop_take_length _ _ ?_
    have : ((size + size * 0 + size ^ 2 * 0) * 3).toNat = (size * 3).toNat := by
      congr 1
      ring
    rw [this]
    omega

/-- C2 amended, witness at `size = 2` on `d24`. -/
theorem index_3d_no_bounds_check_witness :
    index_3d d24 2 2 0 0 = index_3d d24 2 0 1 0 ∧
    (index_3d d24 2 2 0 0).length = 3 :=
  index_3d_no_bounds_check d24 2 (by norm_num) (by decide)

/-! ### C5: constructor validation -/

/-- The numeric kind of the elements an `array.array` holds: Python ints
for the integral typecodes, floats for `'f'`/`'d'`, something else (e.g.
unicode characters for `'u'`) otherwise. -/
def elementKind (tc : Char) : Option Bool :=
  if tc ∈ integralTypecodes then some true
  else if tc ∈ floatTypecodes then some false
  else none

/-- C5: `ColorLUT.__init__` fails whenever a construction invariant is
violated — `sample_count` missing or not an integer `≥ 2` (so
construction never succeeds for `sample_count < 2`), a buffer length
different from `3 * sample_count³`, or the element kind of `data` not
matching `input_domain`'s numeric kind. -/
theorem init_rejects_invalid (arr : PyArray) (sc : Option ℤ)
    (dom : Option PyNum) (rif : Bool)
    (h : (∀ n, sc = some n → n < 2) ∨
         (∃ n, sc = some n ∧ (arr.elems.length : ℤ) ≠ 3 * n ^ 3) ∨
         (∃ d, dom = some d ∧ elementKind arr.typecode ≠ some d.isIntegral)) :
    failed (ColorLUT.init arr sc dom rif) = true := by
  by_contra hok
  simp only [Bool.not_eq_true] at hok
  simp only [ColorLUT.init] at hok
  split at hok
  · simp [failed] at hok
  rename_i hne
  rcases sc with _ | n
  · simp [failed] at hok
  rcases dom with _ | d
  · simp [failed] at hok
  simp only at hok
  split at hok
  · simp [failed] at hok
  split at hok
  · simp [failed] at hok
  split at hok
  · simp [failed] at hok
  split at hok
  · simp [failed] at hok
  rename_i hkind1 hkind2 hlen h1
  rcases h with hsc | ⟨m, hm, hmlen⟩ | ⟨d2, hd2, hd2k⟩
  · have hn2 : n < 2 := hsc n rfl
    have hlen0 : (arr.elems.length : ℤ) = 3 * n ^ 3 := by
      by_contra hc
      exact hlen hc
    have hlenpos : (0:ℤ) ≤ (arr.elems.length : ℤ) := Int.natCast_nonneg _
    have hn0 : 0 ≤ n := by
      by_contra hneg
      push_neg at hneg
      have hn1 : n ≤ -1 := by omega
      have h2 : (1:ℤ) ≤ n ^ 2 := by nlinarith
      have h3 : n ^ 3 ≤ -1 := by
        nlinarith [mul_le_mul_of_nonneg_right hn1 (by nlinarith : (0:ℤ) ≤ n ^ 2)]
      nlinarith
    interval_cases n
    · apply hne
      have hz : arr.elems.length = 0 := by
        have : (arr.elems.length : ℤ) = 0 := by rw [hlen0]; ring
        omega
      exact List.length_eq_zero.mp hz
    · exact h1 rfl
  · cases hm
    exact hlen hmlen
  · cases hd2
    rcases hd : d.isIntegral with _ | _
    · rw [hd] at hd2k
      have htc : arr.typecode ∈ floatTypecodes := by
        by_contra hc
        exact hkind2 ⟨by simp [hd], hc⟩
      have hek : elementKind arr.typecode = some false := by
        simp only [floatTypecodes, List.mem_cons, List.not_mem_nil, or_false] at htc
        rcases htc with h | h <;> rw [h] <;> decide
      exact hd2k (by rw [hek])
    · rw [hd] at hd2k
      have htc : arr.typecode ∈ integralTypecodes := by
        by_contra hc
        exact hkind1 ⟨hd, hc⟩
      have hek : elementKind arr.typecode = some true := by
        simp only [integralTypecodes, List.mem_cons, List.not_mem_nil, or_false] at htc
        rcases htc with h | h | h | h | h | h | h | h <;> rw [h] <;> decide
      exact hd2k (by rw [hek])

/-- C5 witness: `sample_count = 1` (with an otherwise plausible
3-element integral buffer and domain 255) is rejected. -/
theorem init_rejects_invalid_witness :
    failed (ColorLUT.init ⟨'B', [0, 0, 0]⟩ (some 1) (some (.int 255)) true)
      = true :=
  init_rejects_invalid ⟨'B', [0, 0, 0]⟩ (some 1) (some (.int 255)) true
    (Or.inl (fun n hn => by cases hn; norm_num))

/-! ### C1: `from_haldclut` dimension validation -/

theorem is_perfect_six_root_implies (n : ℕ) (h : is_perfect_six_root n = true) :
    ∃ c : ℕ, c ^ 6 = n := by
  simp only [is_perfect_six_root, Bool.or_eq_true, beq_iff_eq] at h
  rcases h with h | h
  · exact ⟨i6root n, h⟩
  · exact ⟨i6root n + 1, h⟩

set_option maxRecDepth 40000 in
/-- A structurally flawless 64×64 decoded image (level-4 Hald CLUT) is
accepted by `from_haldclut`: `64² = 4096 = 4⁶`. -/
theorem from_haldclut_64_accepted : ColorLUT.from_haldclut 64 64 'B'
      (List.replicate 12288 0) ⟨false, false, false, false, false, 8⟩ =
    .ok ⟨List.replicate 12288 0, 16, 255, true⟩ := by
  have h6 : is_perfect_six_root (64 ^ 2) = true := by decide
  have hc : cbrtRound (64 ^ 2) = 16 := by decide
  simp only [ColorLUT.from_haldclut, ColorLUT.init, h6, hc]
  norm_num [PyNum.isIntegral, PyNum.toRat, integralTypecodes]

/-- C1 counterexample: a structurally flawless 64×64 decoded image is
NOT rejected — `64² = 4096 = 4⁶` is a perfect 6th power, so
`from_haldclut` accepts it and builds the `sample_count = 16`,
`input_domain = 255` LUT (a Hald CLUT of level 4). -/
theorem from_haldclut_accepts_64 :
    ColorLUT.from_haldclut 64 64 'B' (List.replicate 12288 0)
        ⟨false, false, false, false, false, 8⟩ =
      .ok ⟨List.replicate 12288 0, 16, 255, true⟩ :=
  from_haldclut_64_accepted

/-- C1 amended: `from_haldclut` rejects any decoded image whose width
differs from its height or whose squared width is not a perfect 6th
power; a 64×64 image, however, is a valid Hald CLUT (level 4:
`64² = 4096 = 4⁶`, `sample_count = 16`) and is accepted, not rejected
(second conjunct; e.g. 64×32 or 63×63 images are rejected). -/
theorem from_haldclut_rejects_bad_dims (width height : ℕ) (tc : Char)
    (pixels : List ℚ) (meta : PngMeta)
    (h : width ≠ height ∨ ¬ ∃ c : ℕ, c ^ 6 = width ^ 2) :
    failed (ColorLUT.from_haldclut width height tc pixels meta) = true ∧
    ColorLUT.from_haldclut 64 64 'B' (List.replicate 12288 0)
        ⟨false, false, false, false, false, 8⟩ =
      .ok ⟨List.replicate 12288 0, 16, 255, true⟩ := by
  refine ⟨?_, from_haldclut_64_accepted⟩
  simp only [ColorLUT.from_haldclut]
  split
  · rfl
  split
  · rfl
  split
  · rfl
  split
  · rfl
  split
  · rfl
  split
  · rfl
  · rename_i hdim
    exfalso
    apply hdim
    rcases h with h | h
    · exact Or.inl h
    · right
      rcases hb : is_perfect_six_root (width ^ 2) with _ | _
      · rfl
      · exact absurd (is_perfect_six_root_implies _ hb) h

/-- C1 amended, witness: a 64×32 decoded image is rejected (and the
64×64 acceptance restated). -/
theorem from_haldclut_rejects_bad_dims_witness :
    failed (ColorLUT.from_haldclut 64 32 'B' [0]
        ⟨false, false, false, false, false, 8⟩) = true ∧
    ColorLUT.from_haldclut 64 64 'B' (List.replicate 12288 0)
        ⟨false, false, false, false, false, 8⟩ =
      .ok ⟨List.replicate 12288 0, 16, 255, true⟩ :=
  from_haldclut_rejects_bad_dims 64 32 'B' [0]
    ⟨false, false, false, false, false, 8⟩ (Or.inl (by norm_num))

/-! ### C6: `uniform_intervals` -/

/-- The tolerance loop passes exactly when every adjacent pair of the
list is within tolerance. -/
theorem checkPairs_iff (dist : ℚ) : ∀ l : List ℤ,
    (checkPairs dist l = true ↔
      ∀ j, j + 1 < l.length →
        |(((l.getD (j+1) 0 : ℤ) : ℚ) - ((l.getD j 0 : ℤ) : ℚ)) / dist - 1|
          ≤ 7/100)
  | [] => by
      constructor
      · intro _ j hj
        simp at hj
      · intro _
        rfl
  | [a] => by
      constructor
      · intro _ j hj
        simp at hj
      · intro _
        rfl
  | a :: b :: t => by
      have ih := checkPairs_iff dist (b :: t)
      constructor
      · intro h j hj
        simp only [checkPairs, Bool.and_eq_true, decide_eq_true_eq] at h
        obtain ⟨h1, h2⟩ := h
        rcases j with _ | j
        · simpa using h1
        · have := (ih.mp h2) j (by simp only [List.length_cons] at hj ⊢; omega)
          simpa using this
      · intro h
        simp only [checkPairs, Bool.and_eq_true, decide_eq_true_eq]
        constructor
        · have := h 0 (by simp)
          simpa using this
        · refine ih.mpr ?_
          intro j hj
          have := h (j+1) (by simp only [List.length_cons] at hj ⊢; omega)
          simpa using this

/-- `round` of an integer-valued rational is that integer. -/
theorem pyRound_int (z : ℤ) : pyRound ((z : ℤ) : ℚ) = z := by
  simp only [pyRound, Int.floor_intCast]
  norm_num

/-- Reading the `j`-th element of a mapped `pyRange`. -/
theorem pyRange_map_getD (f : ℤ → ℤ) (n : ℤ) (j : ℕ) (hj : (j : ℤ) < n) :
    ((pyRange n).map f).getD j 0 = f (j : ℤ) := by
  have hj2 : j < ((pyRange n).map f).length := by
    simp only [List.length_map, pyRange, List.length_range]
    omega
  rw [List.getD_eq_getElem _ 0 hj2]
  simp only [pyRange, List.getElem_map, List.getElem_range]

/-- The worked concrete case: `uniform_intervals(255, 16)`.  The spacing
`255/15 = 17` is exact, so every value is an integer multiple of 17 and
every adjacent pair is exactly the ideal distance apart. -/
theorem uniform_intervals_at_255_16 :
    uniform_intervals 255 16 =
      .ok [0, 17, 34, 51, 68, 85, 102, 119, 136, 153, 170, 187, 204, 221,
        238, 255] := by
  have hne : (16 : ℤ) ≠ 1 := by norm_num
  simp only [uniform_intervals, if_neg hne]
  rw [show (255 : ℚ) / (((16 : ℤ) : ℚ) - 1) = 17 by norm_num]
  have hround : ∀ i : ℤ, pyRound ((17 : ℚ) * (i : ℚ)) = 17 * i := by
    intro i
    rw [show (17 : ℚ) * (i : ℚ) = ((17 * i : ℤ) : ℚ) by push_cast; ring]
    exact pyRound_int _
  simp only [hround]
  rw [show (pyRange 16).map (fun (i : ℤ) => 17 * i) =
      [0, 17, 34, 51, 68, 85, 102, 119, 136, 153, 170, 187, 204, 221, 238,
        255] from by decide]
  rw [if_pos]
  simp only [checkPairs, Bool.and_eq_true, decide_eq_true_eq]
  norm_num

/-- C6: in integral mode `uniform_intervals(end, samples)` returns the
`samples` values `round(i * end/(samples-1))` for `i = 0..samples-1`, and
fails with the non-uniform-distribution `ValueError` exactly when some
adjacent pair of rounded values deviates from the ideal spacing
`end/(samples-1)` by more than the 7% tolerance fraction; in particular
`uniform_intervals(255, 16)` succeeds and returns `[0, 17, 34, ..., 255]`. -/
theorem uniform_intervals_spec (e : ℚ) (n : ℤ) (he : 0 < e) (hn : 2 ≤ n) :
    (failed (uniform_intervals e n) = true ↔
      ∃ j : ℕ, (j : ℤ) + 1 < n ∧
        7/100 < |(((pyRound (e / ((n:ℚ) - 1) * ((j:ℚ) + 1)) : ℤ) : ℚ) -
            ((pyRound (e / ((n:ℚ) - 1) * (j:ℚ)) : ℤ) : ℚ)) /
            (e / ((n:ℚ) - 1)) - 1|) ∧
    (∀ vs, uniform_intervals e n = .ok vs →
      vs = (pyRange n).map (fun (i : ℤ) => pyRound (e / ((n:ℚ) - 1) * (i:ℚ)))) ∧
    uniform_intervals 255 16 =
      .ok [0, 17, 34, 51, 68, 85, 102, 119, 136, 153, 170, 187, 204, 221,
        238, 255] := by
  have hne1 : n ≠ 1 := by omega
  set dist := e / ((n : ℚ) - 1) with hdist
  set values := (pyRange n).map (fun (i : ℤ) => pyRound (dist * (i : ℚ)))
    with hvalues
  have hlen : values.length = n.toNat := by
    simp only [hvalues, List.length_map, pyRange, List.length_range]
  have hget : ∀ j : ℕ, j < n.toNat →
      values.getD j 0 = pyRound (dist * (j : ℚ)) := by
    intro j hj
    rw [hvalues, pyRange_map_getD _ n j (by omega)]
    norm_num
  have hcpiff := checkPairs_iff dist values
  have hunf : uniform_intervals e n =
      if checkPairs dist values then .ok values
      else .error (.valueError
        "input parameters to uniform_intervals would yield a non-uniform distribution.") := by
    simp only [uniform_intervals, if_neg hne1]
  refine ⟨?_, ?_, uniform_intervals_at_255_16⟩
  · rcases hcp : checkPairs dist values with _ | _
    · rw [hunf, if_neg (by simp [hcp])]
      constructor
      · intro _
        have hnot : ¬ ∀ j, j + 1 < values.length →
            |(((values.getD (j+1) 0 : ℤ) : ℚ) - ((values.getD j 0 : ℤ) : ℚ)) /
              dist - 1| ≤ 7/100 := by
          intro hall
          rw [hcpiff.mpr hall] at hcp
          cases hcp
        push_neg at hnot
        obtain ⟨j, hj, hgt⟩ := hnot
        refine ⟨j, by omega, ?_⟩
        rw [hget (j+1) (by omega), hget j (by omega)] at hgt
        rw [show ((j + 1 : ℕ) : ℚ) = (j : ℚ) + 1 by push_cast; ring] at hgt
        exact hgt
      · intro _
        rfl
    · rw [hunf, if_pos hcp]
      constructor
      · intro hf
        exact absurd hf (by simp [failed])
      · rintro ⟨j, hj, hgt⟩
        exfalso
        have hall := hcpiff.mp hcp
        have hle := hall j (by omega)
        rw [hget (j+1) (by omega), hget j (by omega)] at hle
        rw [show ((j + 1 : ℕ) : ℚ) = (j : ℚ) + 1 by push_cast; ring] at hle
        exact absurd hgt (not_lt.mpr hle)
  · intro vs hvs
    rw [hunf] at hvs
    by_cases hcp : checkPairs dist values = true
    · rw [if_pos hcp] at hvs
      cases hvs
      rfl
    · rw [if_neg hcp] at hvs
      exact absurd hvs (by simp)

/-- C6 witness: the concrete `uniform_intervals(255, 16)` conjunct,
obtained from the theorem at `e = 255`, `n = 16`. -/
theorem uniform_intervals_spec_witness :
    uniform_intervals 255 16 =
      .ok [0, 17, 34, 51, 68, 85, 102, 119, 136, 153, 170, 187, 204, 221,
        238, 255] :=
  (uniform_intervals_spec 255 16 (by norm_num) (by norm_num)).2.2

/-! ### C9: greyscale expansion in `from_haldclut` -/

theorem tripleGenerator_eq_flatMap : ∀ l : List ℚ,
    tripleGenerator l = l.flatMap (fun v => [v, v, v])
  | [] => rfl
  | v :: rest => by
      simp only [tripleGenerator, List.flatMap_cons,
        tripleGenerator_eq_flatMap rest]
      rfl

theorem tripleGenerator_length : ∀ l : List ℚ,
    (tripleGenerator l).length = 3 * l.length
  | [] => rfl
  | v :: rest => by
      simp only [tripleGenerator, List.length_cons,
        tripleGenerator_length rest]
      ring

/-- A successful construction stores exactly the buffer it was given. -/
theorem init_ok_data (arr : PyArray) (sc : Option ℤ) (dom : Option PyNum)
    (rif : Bool) (lut : ColorLUT)
    (h : ColorLUT.init arr sc dom rif = .ok lut) : lut.data = arr.elems := by
  simp only [ColorLUT.init] at h
  split at h
  · exact absurd h (by simp)
  rcases sc with _ | n
  · exact absurd h (by simp)
  rcases dom with _ | d
  · exact absurd h (by simp)
  simp only at h
  split at h
  · exact absurd h (by simp)
  split at h
  · exact absurd h (by simp)
  split at h
  · exact absurd h (by simp)
  split at h
  · exact absurd h (by simp)
  cases h
  rfl

/-- C9: `from_haldclut` accepts a greyscale (single-channel) decoded
buffer of length `N`: it expands it — in input order, each value `v`
becoming the consecutive triple `(v, v, v)` — into an RGB buffer of
length `3N`, and hands exactly that expanded buffer to the `ColorLUT`
constructor; any LUT built from it owns the expanded buffer. -/
theorem from_haldclut_greyscale (width height : ℕ) (tc : Char)
    (pixels : List ℚ) (meta : PngMeta)
    (hgrey : meta.greyscale = true) (hpal : meta.palette = false)
    (hgam : meta.gamma = false) (htra : meta.transparent = false)
    (halp : meta.alpha = false)
    (hbd : meta.bitdepth = 8 ∨ meta.bitdepth = 16)
    (hwh : width = height) (hsix : is_perfect_six_root (width ^ 2) = true) :
    tripleGenerator pixels = pixels.flatMap (fun v => [v, v, v]) ∧
    (tripleGenerator pixels).length = 3 * pixels.length ∧
    ColorLUT.from_haldclut width height tc pixels meta =
      ColorLUT.init ⟨tc, tripleGenerator pixels⟩
        (some ((cbrtRound (width ^ 2) : ℕ) : ℤ))
        (some (.int ((2 : ℤ) ^ meta.bitdepth - 1))) true ∧
    (∀ lut, ColorLUT.from_haldclut width height tc pixels meta = .ok lut →
      lut.data = pixels.flatMap (fun v => [v, v, v])) := by
  have hc3 : ColorLUT.from_haldclut width height tc pixels meta =
      ColorLUT.init ⟨tc, tripleGenerator pixels⟩
        (some ((cbrtRound (width ^ 2) : ℕ) : ℤ))
        (some (.int ((2 : ℤ) ^ meta.bitdepth - 1))) true := by
    simp only [ColorLUT.from_haldclut, hpal, hgam, htra, halp, hgrey,
      Bool.false_eq_true, if_false, if_true]
    rw [if_neg (by rcases hbd with h | h <;> simp [h]),
      if_neg (by subst hwh; simp [hsix])]
  refine ⟨tripleGenerator_eq_flatMap pixels, tripleGenerator_length pixels,
    hc3, ?_⟩
  intro lut hl
  rw [hc3] at hl
  have := init_ok_data _ _ _ _ _ hl
  rw [this]
  exact tripleGenerator_eq_flatMap pixels

/-- C9 witness: an 8×8 greyscale image (level-2 Hald CLUT, 64 pixels,
`sample_count = 4`) at the concrete constant buffer of value 5. -/
theorem from_haldclut_greyscale_witness :
    tripleGenerator (List.replicate 64 (5 : ℚ)) =
      (List.replicate 64 (5 : ℚ)).flatMap (fun v => [v, v, v]) ∧
    (tripleGenerator (List.replicate 64 (5 : ℚ))).length =
      3 * (List.replicate 64 (5 : ℚ)).length ∧
    ColorLUT.from_haldclut 8 8 'B' (List.replicate 64 (5 : ℚ))
        ⟨false, false, false, false, true, 8⟩ =
      ColorLUT.init ⟨'B', tripleGenerator (List.replicate 64 (5 : ℚ))⟩
        (some ((cbrtRound (8 ^ 2) : ℕ) : ℤ)) (some (.int ((2 : ℤ) ^ 8 - 1)))
        true ∧
    (∀ lut, ColorLUT.from_haldclut 8 8 'B' (List.replicate 64 (5 : ℚ))
        ⟨false, false, false, false, true, 8⟩ = .ok lut →
      lut.data = (List.replicate 64 (5 : ℚ)).flatMap (fun v => [v, v, v])) :=
  from_haldclut_greyscale 8 8 'B' (List.replicate 64 (5 : ℚ))
    ⟨false, false, false, false, true, 8⟩ rfl rfl rfl rfl rfl (Or.inl rfl)
    rfl (by decide)

/-! ### Enumeration lemmas for `get_values_translated` -/

theorem mem_pyRange {n i : ℤ} (h : i ∈ pyRange n) : 0 ≤ i ∧ i < n := by
  simp only [pyRange, List.mem_map, List.mem_range] at h
  obtain ⟨m, hm, rfl⟩ := h
  omega

theorem mem_cartesian {n : ℤ} {b : Bool} {t : ℤ × ℤ × ℤ}
    (h : t ∈ cartesian n b) :
    (0 ≤ t.1 ∧ t.1 < n) ∧ (0 ≤ t.2.1 ∧ t.2.1 < n) ∧
      (0 ≤ t.2.2 ∧ t.2.2 < n) := by
  rcases b with _ | _ <;>
    simp only [cartesian, if_true, if_false, Bool.false_eq_true,
      List.mem_flatMap, List.mem_map] at h
  · obtain ⟨r, hr, g, hg, bb, hb, rfl⟩ := h
    exact ⟨mem_pyRange hr, mem_pyRange hg, mem_pyRange hb⟩
  · obtain ⟨bb, hb, g, hg, r, hr, rfl⟩ := h
    exact ⟨mem_pyRange hr, mem_pyRange hg, mem_pyRange hb⟩

/-- Collapsing one nesting level of a rectangular loop into a single
flat range. -/
theorem range_flatMap_map {α : Type _} (b : ℕ) (f : ℕ → α) : ∀ a : ℕ,
    (List.range a).flatMap
        (fun i => (List.range b).map (fun j => f (b * i + j)))
      = (List.range (b * a)).map f
  | 0 => by simp
  | a + 1 => by
      rw [List.range_succ, List.flatMap_append, range_flatMap_map b f a,
        List.flatMap_singleton, Nat.mul_succ, List.range_add,
        List.map_append, List.map_map]
      rfl

/-- Collapsing the triple nested loop (outermost index slowest) into the
flat range of `n³` offsets. -/
theorem range_triple_flatMap {α : Type _} (n : ℕ) (G : ℕ → α) :
    (List.range n).flatMap (fun i =>
      (List.range n).flatMap (fun j =>
        (List.range n).map (fun k => G (k + n * j + n ^ 2 * i))))
      = (List.range (n ^ 3)).map G := by
  have h1 : ∀ i : ℕ,
      (List.range n).flatMap (fun j =>
        (List.range n).map (fun k => G (k + n * j + n ^ 2 * i)))
        = (List.range (n * n)).map (fun t => G (t + n ^ 2 * i)) := by
    intro i
    rw [← range_flatMap_map n (fun t => G (t + n ^ 2 * i)) n]
    refine List.flatMap_congr fun j _ => ?_
    refine List.map_congr_left fun k _ => ?_
    congr 1
    ring
  calc (List.range n).flatMap (fun i =>
        (List.range n).flatMap (fun j =>
          (List.range n).map (fun k => G (k + n * j + n ^ 2 * i))))
      = (List.range n).flatMap (fun i =>
          (List.range (n * n)).map (fun t => G (t + n ^ 2 * i))) := by
        exact List.flatMap_congr fun i _ => h1 i
    _ = (List.range (n * n * n)).map G := by
        rw [← range_flatMap_map (n * n) G n]
        refine List.flatMap_congr fun i _ => ?_
        refine List.map_congr_left fun t _ => ?_
        congr 1
        ring
    _ = (List.range (n ^ 3)).map G := by
        rw [show n * n * n = n ^ 3 by ring]

/-- The red-fastest enumeration hit with the canonical flat offset
`r + n*g + n²*b` walks the offsets `0, 1, ..., n³-1` in order. -/
theorem cartesian_true_map {α : Type _} (n : ℕ) (F : ℤ → α) :
    (cartesian (n : ℤ) true).map
        (fun t => F (t.1 + (n : ℤ) * t.2.1 + (n : ℤ) ^ 2 * t.2.2))
      = (List.range (n ^ 3)).map (fun (m : ℕ) => F (m : ℤ)) := by
  simp only [cartesian, if_true, pyRange, List.map_flatMap, List.map_map,
    List.flatMap_map, Int.toNat_natCast]
  rw [← range_triple_flatMap n (fun (m : ℕ) => F (m : ℤ))]
  refine List.flatMap_congr fun bb _ => ?_
  refine List.flatMap_congr fun g _ => ?_
  refine List.map_congr_left fun r _ => ?_
  simp only [Function.comp_apply]
  exact congrArg F (by push_cast; ring)

/-- The blue-fastest enumeration hit with the swapped flat offset
`b + n*g + n²*r` also walks the offsets `0, 1, ..., n³-1` in order. -/
theorem cartesian_false_map {α : Type _} (n : ℕ) (F : ℤ → α) :
    (cartesian (n : ℤ) false).map
        (fun t => F (t.2.2 + (n : ℤ) * t.2.1 + (n : ℤ) ^ 2 * t.1))
      = (List.range (n ^ 3)).map (fun (m : ℕ) => F (m : ℤ)) := by
  simp only [cartesian, if_false, Bool.false_eq_true, pyRange,
    List.map_flatMap, List.map_map, List.flatMap_map, Int.toNat_natCast]
  rw [← range_triple_flatMap n (fun (m : ℕ) => F (m : ℤ))]
  refine List.flatMap_congr fun r _ => ?_
  refine List.flatMap_congr fun g _ => ?_
  refine List.map_congr_left fun bb _ => ?_
  simp only [Function.comp_apply]
  exact congrArg F (by push_cast; ring)

/-- Reading consecutive 3-sample windows at offsets `0, 3, 6, ...`
reconstructs the triple decomposition of the buffer. -/
theorem range_map_window : ∀ (m : ℕ) (data : List ℚ),
    data.length = 3 * m →
    (List.range m).map (fun t => Value3D.mk ((data.drop (3 * t)).take 3))
      = triplesOf data
  | 0, data => by
      intro h
      have hd : data = [] := List.length_eq_zero.mp (by omega)
      subst hd
      rfl
  | m + 1, data => by
      intro h
      rcases data with _ | ⟨a, _ | ⟨b, _ | ⟨c, rest⟩⟩⟩
      · simp at h
      · simp at h
        omega
      · simp at h
        omega
      have hr : rest.length = 3 * m := by
        simp only [List.length_cons] at h
        omega
      rw [List.range_succ_eq_map, List.map_cons, List.map_map]
      have hhead : Value3D.mk (((a :: b :: c :: rest).drop (3 * 0)).take 3)
          = Value3D.mk [a, b, c] := by
        norm_num
      have htail : (List.range m).map
          ((fun t => Value3D.mk (((a :: b :: c :: rest).drop (3 * t)).take 3))
            ∘ Nat.succ)
          = (List.range m).map
            (fun t => Value3D.mk ((rest.drop (3 * t)).take 3)) := by
        refine List.map_congr_left fun t _ => ?_
        have hd : (a :: b :: c :: rest).drop (3 * Nat.succ t)
            = rest.drop (3 * t) := by
          rw [show 3 * Nat.succ t = 3 * t + 1 + 1 + 1 by omega]
          rfl
        simp only [Function.comp]
        rw [hd]
      rw [hhead, htail, range_map_window m rest hr]
      rfl

/-! ### C4: identity resampling -/

/-- Direct lookup over the LUT's own enumeration order reproduces the
buffer's triples: the blue-fastest enumeration combined with the
red/blue index swap (and the red-fastest enumeration without it) walks
the flat buffer front to back. -/
theorem direct_lookup_eq_triples (lut : ColorLUT) (n : ℕ)
    (hN : lut.sample_count = (n : ℤ)) (hlen3 : lut.data.length = 3 * n ^ 3) :
    (cartesian lut.sample_count lut.red_increments_fastest).map
        (fun t => lut.get_color_value_from_index t.1 t.2.1 t.2.2)
      = triplesOf lut.data := by
  have hlenZ : (lut.data.length : ℤ) = 3 * ((n : ℤ)) ^ 3 := by
    exact_mod_cast hlen3
  rcases hrif : lut.red_increments_fastest with _ | _
  · rw [hN]
    calc (cartesian ((n : ℤ)) false).map
          (fun t => lut.get_color_value_from_index t.1 t.2.1 t.2.2)
        = (cartesian ((n : ℤ)) false).map (fun t => Value3D.mk
            ((lut.data.drop
              ((t.2.2 + (n : ℤ) * t.2.1 + (n : ℤ) ^ 2 * t.1) * 3).toNat).take 3)) := by
          refine List.map_congr_left fun t ht => ?_
          obtain ⟨⟨hr0, hr⟩, ⟨hg0, hg⟩, ⟨hb0, hb⟩⟩ := mem_cartesian ht
          simp only [ColorLUT.get_color_value_from_index, hrif,
            Bool.false_eq_true, if_false, hN]
          obtain ⟨hf0, hf1⟩ :=
            flat_bounds (n : ℤ) t.2.2 t.2.1 t.1 hb0 hb hg0 hg hr0 hr
          rw [index_3d_in_bounds lut.data ((n : ℤ)) t.2.2 t.2.1 t.1 hlenZ
            hf0 hf1]
      _ = (List.range (n ^ 3)).map (fun (m : ℕ) => Value3D.mk
            ((lut.data.drop (((m : ℤ) * 3).toNat)).take 3)) :=
          cartesian_false_map n
            (fun z => Value3D.mk ((lut.data.drop ((z * 3).toNat)).take 3))
      _ = (List.range (n ^ 3)).map (fun t => Value3D.mk
            ((lut.data.drop (3 * t)).take 3)) := by
          refine List.map_congr_left fun m _ => ?_
          rw [show ((m : ℤ) * 3).toNat = 3 * m by omega]
      _ = triplesOf lut.data := range_map_window (n ^ 3) lut.data hlen3
  · rw [hN]
    calc (cartesian ((n : ℤ)) true).map
          (fun t => lut.get_color_value_from_index t.1 t.2.1 t.2.2)
        = (cartesian ((n : ℤ)) true).map (fun t => Value3D.mk
            ((lut.data.drop
              ((t.1 + (n : ℤ) * t.2.1 + (n : ℤ) ^ 2 * t.2.2) * 3).toNat).take 3)) := by
          refine List.map_congr_left fun t ht => ?_
          obtain ⟨⟨hr0, hr⟩, ⟨hg0, hg⟩, ⟨hb0, hb⟩⟩ := mem_cartesian ht
          simp only [ColorLUT.get_color_value_from_index, hrif, if_true, hN]
          obtain ⟨hf0, hf1⟩ :=
            flat_bounds (n : ℤ) t.1 t.2.1 t.2.2 hr0 hr hg0 hg hb0 hb
          rw [index_3d_in_bounds lut.data ((n : ℤ)) t.1 t.2.1 t.2.2 hlenZ
            hf0 hf1]
      _ = (List.range (n ^ 3)).map (fun (m : ℕ) => Value3D.mk
            ((lut.data.drop (((m : ℤ) * 3).toNat)).take 3)) :=
          cartesian_true_map n
            (fun z => Value3D.mk ((lut.data.drop ((z * 3).toNat)).take 3))
      _ = (List.range (n ^ 3)).map (fun t => Value3D.mk
            ((lut.data.drop (3 * t)).take 3)) := by
          refine List.map_congr_left fun m _ => ?_
          rw [show ((m : ℤ) * 3).toNat = 3 * m by omega]
      _ = triplesOf lut.data := range_map_window (n ^ 3) lut.data hlen3

/-- C4: resampling a valid `ColorLUT` to its own `sample_count`, its own
`input_domain` and its own axis order yields exactly the original stored
sample triples in buffer order — the direct-lookup path is taken (no
interpolation) and no scaling is applied. -/
theorem gvt_identity (lut : ColorLUT) (h : lut.Valid) :
    lut.get_values_translated lut.red_increments_fastest
        (some lut.sample_count) (some lut.input_domain)
      = .ok (triplesOf lut.data) := by
  obtain ⟨h2, hlen, hD⟩ := h
  have hD0 : ¬ lut.input_domain = 0 := ne_of_gt hD
  have hN : lut.sample_count = ((lut.sample_count.toNat : ℕ) : ℤ) := by omega
  have hlen3 : lut.data.length = 3 * lut.sample_count.toNat ^ 3 := by
    rw [hN] at hlen
    exact_mod_cast hlen
  simp only [ColorLUT.get_values_translated, if_neg hD0, ne_eq,
    not_true_eq_false, if_false, ite_false]
  exact congrArg Except.ok
    (direct_lookup_eq_triples lut lut.sample_count.toNat hN hlen3)

/-- C4 witness: the 2×2×2 LUT over `d24` (domain 255, red-fastest). -/
theorem gvt_identity_witness :
    ColorLUT.get_values_translated ⟨d24, 2, 255, true⟩ true (some 2)
        (some 255) = .ok (triplesOf d24) :=
  gvt_identity ⟨d24, 2, 255, true⟩ ⟨by norm_num, by norm_num [d24], by norm_num⟩

/-! ### C7: domain scaling -/

/-- Interpolation always returns a full 3-component value (the final
blend is a `Value3D.add`). -/
theorem interp_len3 (lut : ColorLUT) (r g b : ℚ) :
    (lut.get_interpolated_color_value r g b).components.length = 3 := rfl

theorem map_mul_one_of_len3 (l : List Value3D)
    (hl : ∀ v ∈ l, v.components.length = 3) :
    l.map (fun v => v.mul 1) = l := by
  calc l.map (fun v => v.mul 1)
      = l.map id :=
        List.map_congr_left fun v hv => Value3D.mul_one_of_len3 v (hl v hv)
    _ = l := List.map_id l

/-- C7: scaling the output domain by `k > 0` multiplies every produced
triple componentwise by `k` — after lookup or interpolation — and
changes nothing else: the run with `output_domain = k * input_domain`
is exactly the run with `output_domain = input_domain` mapped through
multiplication by `k` (including the error cases, which coincide). -/
theorem gvt_domain_scaling (lut : ColorLUT) (h : lut.Valid) (irf : Bool)
    (osc : ℤ) (k : ℚ) (hk : 0 < k) :
    lut.get_values_translated irf (some osc) (some (k * lut.input_domain))
      = Except.map (fun l => l.map (fun v => v.mul k))
          (lut.get_values_translated irf (some osc)
            (some lut.input_domain)) := by
  obtain ⟨h2, hlen, hD⟩ := h
  have hD0 : ¬ lut.input_domain = 0 := ne_of_gt hD
  have hfac : k * lut.input_domain / lut.input_domain = k :=
    mul_div_cancel_right₀ k hD0
  simp only [ColorLUT.get_values_translated, if_neg hD0, ne_eq]
  by_cases hio : osc = lut.sample_count
  · by_cases hk1 : k = 1
    · subst hk1
      rw [one_mul]
      simp only [hio, not_true_eq_false, if_false, ite_false, ite_self,
        Except.map]
      rw [map_mul_one_of_len3]
      intro v hv
      obtain ⟨t, ht, rfl⟩ := List.mem_map.mp hv
      obtain ⟨⟨hr0, hr⟩, ⟨hg0, hg⟩, ⟨hb0, hb⟩⟩ := mem_cartesian ht
      exact get_color_value_len3 lut hlen t.1 t.2.1 t.2.2 hr0 hr hg0 hg hb0 hb
    · have hsc : ¬ k * lut.input_domain = lut.input_domain := by
        intro hc
        apply hk1
        have hone : k * lut.input_domain = 1 * lut.input_domain := by
          rw [hc, one_mul]
        exact mul_right_cancel₀ hD0 hone
      simp only [hio, not_true_eq_false, if_false, ite_false, hsc, if_true,
        ite_true, hfac, Except.map]
      simp
  · by_cases h1 : osc = 1
    · subst h1
      simp only [hio, not_false_eq_true, if_true, ite_true, Except.map]
    · by_cases hk1 : k = 1
      · subst hk1
        rw [one_mul]
        simp only [hio, not_false_eq_true, if_true, ite_true, h1, if_false,
          ite_false, not_true_eq_false, ite_self, Except.map]
        rw [map_mul_one_of_len3]
        intro v hv
        obtain ⟨t, ht, rfl⟩ := List.mem_map.mp hv
        exact interp_len3 lut _ _ _
      · have hsc : ¬ k * lut.input_domain = lut.input_domain := by
          intro hc
          apply hk1
          have hone : k * lut.input_domain = 1 * lut.input_domain := by
            rw [hc, one_mul]
          exact mul_right_cancel₀ hD0 hone
        simp only [hio, not_false_eq_true, if_true, ite_true, h1, if_false,
          ite_false, hsc, hfac, Except.map]
        simp

/-- C7 witness: the 2×2×2 LUT over `d24`, red-fastest, `osc = 2`,
`k = 2`. -/
theorem gvt_domain_scaling_witness :
    ColorLUT.get_values_translated ⟨d24, 2, 255, true⟩ true (some 2)
        (some (2 * 255))
      = Except.map (fun l => l.map (fun v => v.mul 2))
          (ColorLUT.get_values_translated ⟨d24, 2, 255, true⟩ true (some 2)
            (some 255)) :=
  gvt_domain_scaling ⟨d24, 2, 255, true⟩
    ⟨by norm_num, by norm_num [d24], by norm_num⟩ true 2 2 (by norm_num)

/-! ### C8: the `.3dl` writer -/

/-- C8 amended: whenever the header computation succeeds, `write_3dl`
emits the `sample_count` uniform interval values over the fixed output
domain 1023, then exactly `sample_count³` lines of pyRound-rounded
component triples of the looked-up samples scaled by
`1023 / input_domain`, enumerated in blue-fastest nested-loop order
(last conjunct: blue as the unit digit of the flat position, red as the
`sample_count²` digit, so blue varies fastest and red slowest),
regardless of the source LUT's domain. -/
theorem write_3dl_format (lut : ColorLUT) (h : lut.Valid) (ivs : List ℤ)
    (hu : uniform_intervals 1023 lut.sample_count = .ok ivs) :
    lut.write_3dl = .ok (ivs, (cartesian lut.sample_count false).map
        (fun t => ((lut.get_color_value_from_index t.1 t.2.1 t.2.2).mul
          (1023 / lut.input_domain)).components.map pyRound)) ∧
    (ivs.length : ℤ) = lut.sample_count ∧
    ((cartesian lut.sample_count false).length : ℤ) = lut.sample_count ^ 3 ∧
    (cartesian lut.sample_count false).map
        (fun t => t.2.2 + lut.sample_count * t.2.1 +
          lut.sample_count ^ 2 * t.1)
      = pyRange (lut.sample_count ^ 3) := by
  obtain ⟨h2, hlen, hD⟩ := h
  have hD0 : ¬ lut.input_domain = 0 := ne_of_gt hD
  have hN1 : lut.sample_count ≠ 1 := by omega
  have hN : lut.sample_count = ((lut.sample_count.toNat : ℕ) : ℤ) := by omega
  set n := lut.sample_count.toNat with hndef
  have hivs : ivs = (pyRange lut.sample_count).map
      (fun (i : ℤ) =>
        pyRound ((1023 : ℚ) / ((lut.sample_count : ℚ) - 1) * (i : ℚ))) := by
    simp only [uniform_intervals, if_neg hN1] at hu
    split at hu
    · cases hu
      rfl
    · exact absurd hu (by simp)
  have hlen_ivs : (ivs.length : ℤ) = lut.sample_count := by
    rw [hivs]
    simp only [List.length_map, pyRange, List.length_range]
    omega
  have hgvt : lut.get_values_translated false (some lut.sample_count)
      (some 1023)
      = .ok ((cartesian lut.sample_count false).map
          (fun t => (lut.get_color_value_from_index t.1 t.2.1 t.2.2).mul
            (1023 / lut.input_domain))) := by
    simp only [ColorLUT.get_values_translated, if_neg hD0, ne_eq,
      not_true_eq_false, ite_false]
    by_cases hD23 : (1023 : ℚ) = lut.input_domain
    · rw [if_neg (not_not.mpr hD23)]
      have hone : (1023 : ℚ) / lut.input_domain = 1 := by
        rw [← hD23]
        norm_num
      rw [hone]
      refine congrArg Except.ok ?_
      refine (List.map_congr_left fun t ht => ?_)
      obtain ⟨⟨hr0, hr⟩, ⟨hg0, hg⟩, ⟨hb0, hb⟩⟩ := mem_cartesian ht
      exact (Value3D.mul_one_of_len3 _
        (get_color_value_len3 lut hlen t.1 t.2.1 t.2.2 hr0 hr hg0 hg hb0
          hb)).symm
    · rw [if_pos hD23, List.map_map]
      rfl
  have hpow : lut.sample_count ^ 3 = ((n ^ 3 : ℕ) : ℤ) := by
    rw [hN]
    push_cast
    ring
  have hord : (cartesian lut.sample_count false).map
      (fun t => t.2.2 + lut.sample_count * t.2.1 +
        lut.sample_count ^ 2 * t.1)
      = pyRange (lut.sample_count ^ 3) := by
    rw [hN]
    rw [cartesian_false_map n (fun z : ℤ => z)]
    rw [show ((n : ℤ)) ^ 3 = ((n ^ 3 : ℕ) : ℤ) by push_cast; ring]
    simp only [pyRange, Int.toNat_natCast]
  have hcartlen : ((cartesian lut.sample_count false).length : ℤ)
      = lut.sample_count ^ 3 := by
    have hl := congrArg List.length hord
    simp only [List.length_map, pyRange, List.length_range] at hl
    rw [hl, hpow, Int.toNat_natCast]
  refine ⟨?_, hlen_ivs, hcartlen, hord⟩
  simp only [ColorLUT.write_3dl]
  rw [hu, hgvt]
  refine congrArg Except.ok (congrArg _ ?_)
  rw [List.map_map]
  rfl

/-- C8 counterexample: a structurally valid `ColorLUT` on which
`write_3dl` emits nothing at all.  `sample_count = 74` passes every
constructor invariant (buffer length `3·74³ = 1215672`, 16-bit domain
65535), but `uniform_intervals(1023, 74)` trips the 7% tolerance —
between `values[36] = round(36·1023/73) = 504` and
`values[37] = round(37·1023/73) = 519` the spacing error is
`|15·73/1023 - 1| = 72/1023 > 0.07` — so `write_3dl` raises before
writing the header. -/
theorem write_3dl_counterexample :
    ColorLUT.init ⟨'H', List.replicate 1215672 0⟩ (some 74)
        (some (.int 65535)) true
      = .ok ⟨List.replicate 1215672 0, 74, 65535, true⟩ ∧
    failed (ColorLUT.write_3dl ⟨List.replicate 1215672 0, 74, 65535, true⟩)
      = true := by
  constructor
  · have hA : ¬ ((⟨'H', List.replicate 1215672 0⟩ : PyArray).elems = []) := by
      show ¬ (List.replicate 1215672 (0 : ℚ) = [])
      intro hc
      have hl := congrArg List.length hc
      rw [List.length_replicate, List.length_nil] at hl
      exact absurd hl (by norm_num)
    have hB : ¬ ((((⟨'H', List.replicate 1215672 0⟩ : PyArray).elems.length : ℤ))
        ≠ 3 * (74 : ℤ) ^ 3) := by
      show ¬ ((((List.replicate 1215672 (0 : ℚ)).length : ℤ)) ≠ 3 * (74 : ℤ) ^ 3)
      rw [List.length_replicate]
      norm_num
    simp only [ColorLUT.init]
    rw [if_neg hA, if_neg (by decide), if_neg (by decide), if_neg hB,
      if_neg (by decide)]
    rfl
  · have h36 : pyRound ((1023 : ℚ) / (((74 : ℤ) : ℚ) - 1) * ((36 : ℤ) : ℚ))
        = 504 := by
      rw [show (1023 : ℚ) / (((74 : ℤ) : ℚ) - 1) * ((36 : ℤ) : ℚ)
        = 36828 / 73 by norm_num]
      have hf : ⌊(36828 : ℚ) / 73⌋ = 504 := by
        rw [Int.floor_eq_iff]
        constructor <;> norm_num
      simp only [pyRound, hf]
      rw [if_pos (by norm_num)]
    have h37 : pyRound ((1023 : ℚ) / (((74 : ℤ) : ℚ) - 1) * ((37 : ℤ) : ℚ))
        = 519 := by
      rw [show (1023 : ℚ) / (((74 : ℤ) : ℚ) - 1) * ((37 : ℤ) : ℚ)
        = 37851 / 73 by norm_num]
      have hf : ⌊(37851 : ℚ) / 73⌋ = 518 := by
        rw [Int.floor_eq_iff]
        constructor <;> norm_num
      simp only [pyRound, hf]
      rw [if_neg (by norm_num), if_pos (by norm_num)]
      norm_num
    have hfail : failed (uniform_intervals 1023 (74 : ℤ)) = true := by
      rcases hres : uniform_intervals 1023 (74 : ℤ) with e | vs
      · rfl
      · exfalso
        simp only [uniform_intervals, if_neg (by norm_num : ¬(74 : ℤ) = 1)]
          at hres
        split at hres
        · rename_i hcp
          have hall := (checkPairs_iff _ _).mp hcp
          have hpair := hall 36 (by
            simp only [List.length_map, pyRange, List.length_range]
            norm_num)
          rw [pyRange_map_getD _ _ 37 (by norm_num),
            pyRange_map_getD _ _ 36 (by norm_num)] at hpair
          rw [show ((37 : ℕ) : ℤ) = (37 : ℤ) by norm_num,
            show ((36 : ℕ) : ℤ) = (36 : ℤ) by norm_num] at hpair
          rw [h36, h37] at hpair
          norm_num at hpair
          rw [abs_of_nonneg (by norm_num : (0:ℚ) ≤ 24/341)] at hpair
          norm_num at hpair
        · exact absurd hres (by simp)
    simp only [ColorLUT.write_3dl]
    rcases hres : uniform_intervals 1023 (74 : ℤ) with e | vs
    · rfl
    · rw [hres] at hfail
      exact absurd hfail (by simp [failed])

/-- C8 amended, witness: the 2×2×2 LUT over `d24` (domain 255); its
`.3dl` header is `[0, 1023]`. -/
theorem write_3dl_format_witness :
    ColorLUT.write_3dl ⟨d24, 2, 255, true⟩ = .ok ([0, 1023],
      (cartesian (2 : ℤ) false).map
        (fun t => ((ColorLUT.get_color_value_from_index ⟨d24, 2, 255, true⟩
          t.1 t.2.1 t.2.2).mul ((1023 : ℚ) / 255)).components.map pyRound)) ∧
    (([0, 1023] : List ℤ).length : ℤ) = (2 : ℤ) ∧
    (((cartesian (2 : ℤ) false).length : ℤ)) = (2 : ℤ) ^ 3 ∧
    (cartesian (2 : ℤ) false).map
        (fun t => t.2.2 + (2 : ℤ) * t.2.1 + (2 : ℤ) ^ 2 * t.1)
      = pyRange ((2 : ℤ) ^ 3) := by
  have hu : uniform_intervals 1023 (2 : ℤ) = .ok [0, 1023] := by
    have hne : ¬(2 : ℤ) = 1 := by norm_num
    simp only [uniform_intervals, if_neg hne]
    rw [show (1023 : ℚ) / (((2 : ℤ) : ℚ) - 1) = 1023 by norm_num]
    have hr : ∀ i : ℤ, pyRound ((1023 : ℚ) * (i : ℚ)) = 1023 * i := by
      intro i
      rw [show (1023 : ℚ) * (i : ℚ) = ((1023 * i : ℤ) : ℚ) by push_cast; ring]
      exact pyRound_int _
    simp only [hr]
    rw [show (pyRange 2).map (fun (i : ℤ) => 1023 * i) = [0, 1023] from
      by decide]
    rw [if_pos]
    simp only [checkPairs, Bool.and_eq_true, decide_eq_true_eq]
    norm_num
  exact write_3dl_format ⟨d24, 2, 255, true⟩
    ⟨by norm_num, by norm_num [d24], by norm_num⟩ [0, 1023] hu

/-! ### C3: interpolation at exact grid coordinates -/

/-- At the exact input coordinate of grid index `i`, the per-axis
parameters are `(sample_count-2, 1)` at the domain boundary
(`i = sample_count-1`, where the input equals `input_domain`) and
`(i, 0)` elsewhere (`trunc(i·Δ/Δ) = i` and the remainder is zero). -/
theorem axisParam_at_grid (lut : ColorLUT) (h2 : 2 ≤ lut.sample_count)
    (hD : 0 < lut.input_domain) (i : ℕ) (hi : (i : ℤ) < lut.sample_count) :
    lut.axisParam ((i : ℚ) * lut.sample_distance)
      = if (i : ℤ) = lut.sample_count - 1 then
          (lut.sample_count - 2, (1 : ℚ))
        else ((i : ℤ), (0 : ℚ)) := by
  have hq2 : (2 : ℚ) ≤ (lut.sample_count : ℚ) := by exact_mod_cast h2
  have hdel : 0 < lut.sample_distance := by
    refine div_pos hD ?_
    linarith
  have hdom : ((lut.sample_count : ℚ) - 1) * lut.sample_distance
      = lut.input_domain := by
    have hne : ((lut.sample_count : ℚ) - 1) ≠ 0 := by linarith
    simp only [ColorLUT.sample_distance]
    rw [mul_comm]
    exact div_mul_cancel₀ _ hne
  by_cases hib : (i : ℤ) = lut.sample_count - 1
  · rw [if_pos hib]
    have hiq : (i : ℚ) = (lut.sample_count : ℚ) - 1 := by
      have hc := congrArg (fun z : ℤ => (z : ℚ)) hib
      push_cast at hc
      linarith
    have hv : (i : ℚ) * lut.sample_distance = lut.input_domain := by
      rw [hiq, hdom]
    simp only [ColorLUT.axisParam, if_pos hv]
  · rw [if_neg hib]
    have hiq : (i : ℚ) ≠ (lut.sample_count : ℚ) - 1 := by
      intro hc
      apply hib
      have hz : ((i : ℤ) : ℚ) = ((lut.sample_count - 1 : ℤ) : ℚ) := by
        push_cast
        linarith
      exact_mod_cast hz
    have hv : (i : ℚ) * lut.sample_distance ≠ lut.input_domain := by
      intro hc
      rw [← hdom] at hc
      exact hiq (mul_right_cancel₀ (ne_of_gt hdel) hc)
    simp only [ColorLUT.axisParam, if_neg hv]
    have htr : pyTrunc ((i : ℚ) * lut.sample_distance / lut.sample_distance)
        = (i : ℤ) := by
      rw [mul_div_cancel_right₀ _ (ne_of_gt hdel)]
      simp only [pyTrunc]
      rw [if_pos (by positivity)]
      exact_mod_cast Int.floor_natCast i
    have hmod : decimalMod ((i : ℚ) * lut.sample_distance)
        lut.sample_distance = 0 := by
      simp only [decimalMod, htr]
      push_cast
      ring
    rw [htr, hmod, zero_div]

/-- With per-axis weights that are exactly 0 or 1, the trilinear blend
collapses to the corresponding corner (all corners being full
3-component values). -/
theorem blend_select (lut : ColorLUT) (r0 g0 b0 r1 g1 b1 : ℤ) (dr dg db : ℚ)
    (hdr : (dr = 0 ∧ r1 = r0) ∨ (dr = 1 ∧ r1 = r0 + 1))
    (hdg : (dg = 0 ∧ g1 = g0) ∨ (dg = 1 ∧ g1 = g0 + 1))
    (hdb : (db = 0 ∧ b1 = b0) ∨ (db = 1 ∧ b1 = b0 + 1))
    (hlen : ∀ r g b : ℤ, (r = r0 ∨ r = r0 + 1) → (g = g0 ∨ g = g0 + 1) →
      (b = b0 ∨ b = b0 + 1) →
      (lut.get_color_value_from_index r g b).components.length = 3) :
    Value3D.add
      ((Value3D.add
        ((Value3D.add
          ((lut.get_color_value_from_index r0 g0 b0).mul (1 - dr))
          ((lut.get_color_value_from_index (r0 + 1) g0 b0).mul dr)).mul
            (1 - dg))
        ((Value3D.add
          ((lut.get_color_value_from_index r0 (g0 + 1) b0).mul (1 - dr))
          ((lut.get_color_value_from_index (r0 + 1) (g0 + 1) b0).mul dr)).mul
            dg)).mul (1 - db))
      ((Value3D.add
        ((Value3D.add
          ((lut.get_color_value_from_index r0 g0 (b0 + 1)).mul (1 - dr))
          ((lut.get_color_value_from_index (r0 + 1) g0 (b0 + 1)).mul dr)).mul
            (1 - dg))
        ((Value3D.add
          ((lut.get_color_value_from_index r0 (g0 + 1) (b0 + 1)).mul (1 - dr))
          ((lut.get_color_value_from_index (r0 + 1) (g0 + 1) (b0 + 1)).mul
            dr)).mul dg)).mul db)
      = lut.get_color_value_from_index r1 g1 b1 := by
  rcases hdr with ⟨hd, hr⟩ | ⟨hd, hr⟩ <;>
    rcases hdg with ⟨he, hg⟩ | ⟨he, hg⟩ <;>
    rcases hdb with ⟨hf, hb⟩ | ⟨hf, hb⟩ <;>
    subst hd <;> subst he <;> subst hf <;> rw [hr, hg, hb]
  · have hs := hlen r0 g0 b0 (Or.inl rfl) (Or.inl rfl) (Or.inl rfl)
    rw [Value3D.lerp_zero _ _ hs, Value3D.lerp_zero _ _ hs,
      Value3D.lerp_zero _ _ hs]
  · have hs := hlen r0 g0 (b0 + 1) (Or.inl rfl) (Or.inl rfl) (Or.inr rfl)
    rw [Value3D.lerp_zero _ _ hs, Value3D.lerp_zero _ _ hs,
      Value3D.lerp_one _ _ hs]
  · have hs := hlen r0 (g0 + 1) b0 (Or.inl rfl) (Or.inr rfl) (Or.inl rfl)
    rw [Value3D.lerp_zero _ _ hs, Value3D.lerp_one _ _ hs,
      Value3D.lerp_zero _ _ hs]
  · have hs := hlen r0 (g0 + 1) (b0 + 1) (Or.inl rfl) (Or.inr rfl)
      (Or.inr rfl)
    rw [Value3D.lerp_zero _ _ hs, Value3D.lerp_one _ _ hs,
      Value3D.lerp_one _ _ hs]
  · have hs := hlen (r0 + 1) g0 b0 (Or.inr rfl) (Or.inl rfl) (Or.inl rfl)
    rw [Value3D.lerp_one _ _ hs, Value3D.lerp_zero _ _ hs,
      Value3D.lerp_zero _ _ hs]
  · have hs := hlen (r0 + 1) g0 (b0 + 1) (Or.inr rfl) (Or.inl rfl)
      (Or.inr rfl)
    rw [Value3D.lerp_one _ _ hs, Value3D.lerp_zero _ _ hs,
      Value3D.lerp_one _ _ hs]
  · have hs := hlen (r0 + 1) (g0 + 1) b0 (Or.inr rfl) (Or.inr rfl)
      (Or.inl rfl)
    rw [Value3D.lerp_one _ _ hs, Value3D.lerp_one _ _ hs,
      Value3D.lerp_zero _ _ hs]
  · have hs := hlen (r0 + 1) (g0 + 1) (b0 + 1) (Or.inr rfl) (Or.inr rfl)
      (Or.inr rfl)
    rw [Value3D.lerp_one _ _ hs, Value3D.lerp_one _ _ hs,
      Value3D.lerp_one _ _ hs]

/-- C3: for a valid `ColorLUT`, evaluating the trilinear interpolation
exactly at the input coordinates of grid point `(i, j, k)` — that is, at
`(i·sample_distance, j·sample_distance, k·sample_distance)` — returns
exactly the sample stored at `(i, j, k)`, including the boundary indices
`sample_count - 1`, where the input equals `input_domain` and the clamp
`idx0 = sample_count - 2`, `d = 1` applies.  (Over the exact rational
model the equality is exact, hence in particular within any floating
tolerance.) -/
theorem interp_at_grid (lut : ColorLUT) (h : lut.Valid) (i j k : ℕ)
    (hi : (i : ℤ) < lut.sample_count) (hj : (j : ℤ) < lut.sample_count)
    (hk : (k : ℤ) < lut.sample_count) :
    lut.get_interpolated_color_value ((i : ℚ) * lut.sample_distance)
        ((j : ℚ) * lut.sample_distance) ((k : ℚ) * lut.sample_distance)
      = lut.get_color_value_from_index (i : ℤ) (j : ℤ) (k : ℤ) := by
  obtain ⟨h2, hlenZ, hD⟩ := h
  simp only [ColorLUT.get_interpolated_color_value]
  rw [axisParam_at_grid lut h2 hD i hi, axisParam_at_grid lut h2 hD j hj,
    axisParam_at_grid lut h2 hD k hk]
  have L : ∀ r g b : ℤ, 0 ≤ r → r < lut.sample_count → 0 ≤ g →
      g < lut.sample_count → 0 ≤ b → b < lut.sample_count →
      (lut.get_color_value_from_index r g b).components.length = 3 :=
    get_color_value_len3 lut hlenZ
  by_cases hib : (i : ℤ) = lut.sample_count - 1 <;>
    by_cases hjb : (j : ℤ) = lut.sample_count - 1 <;>
    by_cases hkb : (k : ℤ) = lut.sample_count - 1
  · rw [if_pos hib, if_pos hjb, if_pos hkb]
    dsimp only
    exact blend_select lut (lut.sample_count - 2) (lut.sample_count - 2)
      (lut.sample_count - 2) (i : ℤ) (j : ℤ) (k : ℤ) 1 1 1
      (Or.inr ⟨rfl, by omega⟩) (Or.inr ⟨rfl, by omega⟩)
      (Or.inr ⟨rfl, by omega⟩)
      (fun r g b hr hg hb => by
        rcases hr with rfl | rfl <;> rcases hg with rfl | rfl <;>
          rcases hb with rfl | rfl <;>
          exact L _ _ _ (by omega) (by omega) (by omega) (by omega)
            (by omega) (by omega))
  · rw [if_pos hib, if_pos hjb, if_neg hkb]
    dsimp only
    exact blend_select lut (lut.sample_count - 2) (lut.sample_count - 2)
      (k : ℤ) (i : ℤ) (j : ℤ) (k : ℤ) 1 1 0
      (Or.inr ⟨rfl, by omega⟩) (Or.inr ⟨rfl, by omega⟩) (Or.inl ⟨rfl, rfl⟩)
      (fun r g b hr hg hb => by
        rcases hr with rfl | rfl <;> rcases hg with rfl | rfl <;>
          rcases hb with rfl | rfl <;>
          exact L _ _ _ (by omega) (by omega) (by omega) (by omega)
            (by omega) (by omega))
  · rw [if_pos hib, if_neg hjb, if_pos hkb]
    dsimp only
    exact blend_select lut (lut.sample_count - 2) (j : ℤ)
      (lut.sample_count - 2) (i : ℤ) (j : ℤ) (k : ℤ) 1 0 1
      (Or.inr ⟨rfl, by omega⟩) (Or.inl ⟨rfl, rfl⟩) (Or.inr ⟨rfl, by omega⟩)
      (fun r g b hr hg hb => by
        rcases hr with rfl | rfl <;> rcases hg with rfl | rfl <;>
          rcases hb with rfl | rfl <;>
          exact L _ _ _ (by omega) (by omega) (by omega) (by omega)
            (by omega) (by omega))
  · rw [if_pos hib, if_neg hjb, if_neg hkb]
    dsimp only
    exact blend_select lut (lut.sample_count - 2) (j : ℤ) (k : ℤ) (i : ℤ)
      (j : ℤ) (k : ℤ) 1 0 0
      (Or.inr ⟨rfl, by omega⟩) (Or.inl ⟨rfl, rfl⟩) (Or.inl ⟨rfl, rfl⟩)
      (fun r g b hr hg hb => by
        rcases hr with rfl | rfl <;> rcases hg with rfl | rfl <;>
          rcases hb with rfl | rfl <;>
          exact L _ _ _ (by omega) (by omega) (by omega) (by omega)
            (by omega) (by omega))
  · rw [if_neg hib, if_pos hjb, if_pos hkb]
    dsimp only
    exact blend_select lut (i : ℤ) (lut.sample_count - 2)
      (lut.sample_count - 2) (i : ℤ) (j : ℤ) (k : ℤ) 0 1 1
      (Or.inl ⟨rfl, rfl⟩) (Or.inr ⟨rfl, by omega⟩) (Or.inr ⟨rfl, by omega⟩)
      (fun r g b hr hg hb => by
        rcases hr with rfl | rfl <;> rcases hg with rfl | rfl <;>
          rcases hb with rfl | rfl <;>
          exact L _ _ _ (by omega) (by omega) (by omega) (by omega)
            (by omega) (by omega))
  · rw [if_neg hib, if_pos hjb, if_neg hkb]
    dsimp only
    exact blend_select lut (i : ℤ) (lut.sample_count - 2) (k : ℤ) (i : ℤ)
      (j : ℤ) (k : ℤ) 0 1 0
      (Or.inl ⟨rfl, rfl⟩) (Or.inr ⟨rfl, by omega⟩) (Or.inl ⟨rfl, rfl⟩)
      (fun r g b hr hg hb => by
        rcases hr with rfl | rfl <;> rcases hg with rfl | rfl <;>
          rcases hb with rfl | rfl <;>
          exact L _ _ _ (by omega) (by omega) (by omega) (by omega)
            (by omega) (by omega))
  · rw [if_neg hib, if_neg hjb, if_pos hkb]
    dsimp only
    exact blend_select lut (i : ℤ) (j : ℤ) (lut.sample_count - 2) (i : ℤ)
      (j : ℤ) (k : ℤ) 0 0 1
      (Or.inl ⟨rfl, rfl⟩) (Or.inl ⟨rfl, rfl⟩) (Or.inr ⟨rfl, by omega⟩)
      (fun r g b hr hg hb => by
        rcases hr with rfl | rfl <;> rcases hg with rfl | rfl <;>
          rcases hb with rfl | rfl <;>
          exact L _ _ _ (by omega) (by omega) (by omega) (by omega)
            (by omega) (by omega))
  · rw [if_neg hib, if_neg hjb, if_neg hkb]
    dsimp only
    exact blend_select lut (i : ℤ) (j : ℤ) (k : ℤ) (i : ℤ) (j : ℤ) (k : ℤ)
      0 0 0
      (Or.inl ⟨rfl, rfl⟩) (Or.inl ⟨rfl, rfl⟩) (Or.inl ⟨rfl, rfl⟩)
      (fun r g b hr hg hb => by
        rcases hr with rfl | rfl <;> rcases hg with rfl | rfl <;>
          rcases hb with rfl | rfl <;>
          exact L _ _ _ (by omega) (by omega) (by omega) (by omega)
            (by omega) (by omega))

/-- C3 witness: the 2×2×2 LUT over `d24` at the boundary grid point
`(1, 1, 1)`, whose input coordinates equal the input domain. -/
theorem interp_at_grid_witness :
    ColorLUT.get_interpolated_color_value ⟨d24, 2, 255, true⟩
        (((1 : ℕ) : ℚ) * ColorLUT.sample_distance ⟨d24, 2, 255, true⟩)
        (((1 : ℕ) : ℚ) * ColorLUT.sample_distance ⟨d24, 2, 255, true⟩)
        (((1 : ℕ) : ℚ) * ColorLUT.sample_distance ⟨d24, 2, 255, true⟩)
      = ColorLUT.get_color_value_from_index ⟨d24, 2, 255, true⟩
          ((1 : ℕ) : ℤ) ((1 : ℕ) : ℤ) ((1 : ℕ) : ℤ) :=
  interp_at_grid ⟨d24, 2, 255, true⟩
    ⟨by norm_num, by norm_num [d24], by norm_num⟩ 1 1 1 (by norm_num)
    (by norm_num) (by norm_num)

end Cluttool
